import Mathlib

set_option maxRecDepth 8192

/-!
Verification of the mock-repair script `pkg/common/fileops/fix_fileops_mocks.py`.

The script applies three `re.sub` substitutions, in order, to the content of a
generated Go file:

* Rule 1 collapses the duplicated-call malformation
  (whitespace, a truncated first call line, a newline, then the full call)
  into a single tab-indented call; the optional trailing argument is captured
  by group 4 and re-emitted by the template text after the closing parenthesis
  of the type expression, without any separator of its own.
* Rule 2 matches a tab-indented call that carries a trailing argument and
  rewrites it to exactly the matched text (its template reproduces the match).
* Rule 3 matches a tab-indented call without a trailing argument and renames
  the call target to the no-argument variant.

Each regex below is embedded as a deterministic matcher on `List Char`.
Determinism is faithful: every repetition in the patterns is a one-or-more
of a negated single-character class immediately followed by that character
(so only the maximal run can succeed), and the single optional group has one
fallback, encoded explicitly.  `reSub` then reproduces the scan of `re.sub`:
find the leftmost match, emit the replacement, continue after the match.
-/

namespace FixMocks

/-- A document: the character content of the file being repaired. -/
abbrev Doc := List Char

/-- The whitespace class of the pattern-1 leading repetition.  Modelling
boundary: this is the ASCII fragment of the class; the Unicode-only
whitespace code points the original engine would additionally accept do not
occur in the generated Go source the script processes. -/
def isPySpace (c : Char) : Bool :=
  c == ' ' || c == '\t' || c == '\n' || c == '\r' || c == '\x0b' || c == '\x0c'

/-- Match a literal character sequence at the head of the input, returning the
rest of the input after the literal. -/
def matchLit : List Char → Doc → Option Doc
  | [], s => some s
  | _ :: _, [] => none
  | c :: l, x :: s => if c == x then matchLit l s else none

/-- Greedy match of one-or-more characters satisfying `p`: the embedding of a
one-or-more repetition of a (negated) character class.  Returns the maximal
run and the rest of the input. -/
def chomp1 (p : Char → Bool) : Doc → Option (Doc × Doc)
  | [] => none
  | c :: s =>
    if p c then
      match chomp1 p s with
      | some (run, r) => some (c :: run, r)
      | none => some ([c], s)
    else
      none

/-- The fixed call-site fragment of rules 2 and 3 (after the leading tab),
up to and including the opening quote of the name capture. -/
def litCall : Doc :=
  ("return mockrec.RecordCall(mr.mock.ctrl, mr.mock, \"").data

/-- The no-argument call target emitted by rule 3, same surrounding text. -/
def litNoArgs : Doc :=
  ("return mockrec.RecordNoArgsCall(mr.mock.ctrl, mr.mock, \"").data

/-- The fixed fragment of rule 1 after the leading whitespace: the truncated
first call, the hard newline, and the repeated call up to the opening quote. -/
def lit1 : Doc :=
  ("return mockrec.RecordCall(mr.mock.ctrl, mr.mock,\nmockrec.RecordCall(mr.mock.ctrl, mr.mock, \"").data

/-- The fragment between the name capture and the type capture: closing quote,
comma, and the reflective type expression opener. -/
def litRefl : Doc :=
  ("\", reflect.TypeOf((*").data

/-- The fragment between the type capture and the method capture. -/
def litNil : Doc :=
  (")(nil).").data

/-- The common core of all three patterns, entered just after the opening
quote: name capture, closing quote and reflect fragment, type capture, nil
fragment, method capture, and the first closing parenthesis.  Returns the
three captures and the rest of the input. -/
def matchCore (s : Doc) : Option (Doc × Doc × Doc × Doc) :=
  match chomp1 (fun c => c != '"') s with
  | none => none
  | some (g1, s1) =>
    match matchLit litRefl s1 with
    | none => none
    | some s2 =>
      match chomp1 (fun c => c != ')') s2 with
      | none => none
      | some (g2, s3) =>
        match matchLit litNil s3 with
        | none => none
        | some s4 =>
          match chomp1 (fun c => c != ')') s4 with
          | none => none
          | some (g3, s5) =>
            match matchLit [')'] s5 with
            | none => none
            | some s6 => some (g1, g2, g3, s6)

/-- Rule 1 replacement template: tab, the single well-formed call skeleton,
the captures, and group 4 re-emitted directly after the closing parenthesis of
the type expression (an empty group 4 stands for the absent optional group). -/
def rep1 (g1 g2 g3 g4 : Doc) : Doc :=
  '\t' :: (litCall ++ (g1 ++ (litRefl ++ (g2 ++ (litNil ++ (g3 ++ (')' :: (g4 ++ [')']))))))))

/-- Rule 2 replacement template: reproduces the matched text exactly. -/
def rep2 (g1 g2 g3 g4 : Doc) : Doc :=
  '\t' :: (litCall ++ (g1 ++ (litRefl ++ (g2 ++ (litNil ++ (g3 ++ (')' :: ',' :: ' ' :: (g4 ++ [')']))))))))

/-- Rule 3 replacement template: the no-argument call target with the same
captures. -/
def rep3 (g1 g2 g3 : Doc) : Doc :=
  '\t' :: (litNoArgs ++ (g1 ++ (litRefl ++ (g2 ++ (litNil ++ (g3 ++ [')', ')']))))))

/-- The absent-optional-group tail of rule 1: the final closing parenthesis
directly after the core. -/
def matchOneNoArg (g1 g2 g3 : Doc) (s6 : Doc) : Option (Doc × Doc) :=
  match matchLit [')'] s6 with
  | some s7 => some (rep1 g1 g2 g3 [], s7)
  | none => none

/-- The matcher of rule 1 at a given position: leading whitespace run, the
duplicated-call fragment, the core, then the optional trailing-argument group
(tried first, with the absent-group fallback) and the final parenthesis.
Returns the replacement text and the rest of the input after the match. -/
def matchOne (s : Doc) : Option (Doc × Doc) :=
  match chomp1 isPySpace s with
  | none => none
  | some (_, s1) =>
    match matchLit lit1 s1 with
    | none => none
    | some s2 =>
      match matchCore s2 with
      | none => none
      | some (g1, g2, g3, s6) =>
        match matchLit [',', ' '] s6 with
        | some s7 =>
          match chomp1 (fun c => c != ')') s7 with
          | some (g4, s8) =>
            match matchLit [')'] s8 with
            | some s9 => some (rep1 g1 g2 g3 g4, s9)
            | none => matchOneNoArg g1 g2 g3 s6
          | none => matchOneNoArg g1 g2 g3 s6
        | none => matchOneNoArg g1 g2 g3 s6

/-- The matcher of rule 2 at a given position: leading tab, call fragment,
core, then the mandatory trailing-argument fragment. -/
def matchTwo (s : Doc) : Option (Doc × Doc) :=
  match matchLit ('\t' :: litCall) s with
  | none => none
  | some s1 =>
    match matchCore s1 with
    | none => none
    | some (g1, g2, g3, s6) =>
      match matchLit [',', ' '] s6 with
      | none => none
      | some s7 =>
        match chomp1 (fun c => c != ')') s7 with
        | none => none
        | some (g4, s8) =>
          match matchLit [')'] s8 with
          | none => none
          | some s9 => some (rep2 g1 g2 g3 g4, s9)

/-- The matcher of rule 3 at a given position: leading tab, call fragment,
core, then the second closing parenthesis with no arguments in between. -/
def matchThree (s : Doc) : Option (Doc × Doc) :=
  match matchLit ('\t' :: litCall) s with
  | none => none
  | some s1 =>
    match matchCore s1 with
    | none => none
    | some (g1, g2, g3, s6) =>
      match matchLit [')'] s6 with
      | none => none
      | some s7 => some (rep3 g1 g2 g3, s7)

/-- Fuel-indexed scan-and-replace: at each position try the matcher; on a
match emit the replacement and continue after the matched text, otherwise
copy one character and move on.  One unit of fuel is spent per step, and the
initial fuel (the document length) is enough because every matcher consumes
at least one character. -/
def reSubFuel (m : Doc → Option (Doc × Doc)) : Nat → Doc → Doc
  | 0, s => s
  | _ + 1, [] => []
  | fuel + 1, c :: s =>
    match m (c :: s) with
    | some (rep, r) => rep ++ reSubFuel m fuel r
    | none => c :: reSubFuel m fuel s

/-- The embedding of a single `re.sub` call: replace every non-overlapping
occurrence, scanning left to right. -/
def reSub (m : Doc → Option (Doc × Doc)) (s : Doc) : Doc :=
  reSubFuel m s.length s

/-- The first substitution of the script (duplicated-call repair). -/
def sub1 : Doc → Doc := reSub matchOne

/-- The second substitution of the script (with-argument normalization). -/
def sub2 : Doc → Doc := reSub matchTwo

/-- The third substitution of the script (no-argument normalization). -/
def sub3 : Doc → Doc := reSub matchThree

/-- The full pass of the script: the three substitutions in their source
order. -/
def fixPass (d : Doc) : Doc := sub3 (sub2 (sub1 d))

/-- The full pass on the file content as a string. -/
def fixContent (s : String) : String := ⟨fixPass s.data⟩

/-- `noOccB m d` decides that the pattern embedded by `m` matches at no
position of `d` (position `d.length` covers every out-of-range start, where
the remaining input is empty). -/
def noOccB (m : Doc → Option (Doc × Doc)) (d : Doc) : Bool :=
  (List.range (d.length + 1)).all (fun i => (m (d.drop i)).isNone)

/-- Does `pat` occur as a contiguous subsequence of `d`?  Used to state that
an expected fragment is absent from an output. -/
def startsWith : Doc → Doc → Bool
  | [], _ => true
  | _ :: _, [] => false
  | c :: p, x :: d => c == x && startsWith p d

/-- Containment of a contiguous character sequence. -/
def containsSeq (pat d : Doc) : Bool :=
  (List.range (d.length + 1)).any (fun i => startsWith pat (d.drop i))

/-! ### Basic properties of the matching combinators -/

/-- A successful literal match decomposes the input as literal plus rest. -/
theorem matchLit_sub : ∀ (l : List Char) (s r : Doc), matchLit l s = some r → s = l ++ r := by
  intro l
  induction l with
  | nil =>
    intro s r h
    simp only [matchLit, Option.some.injEq] at h
    simp [h]
  | cons c l ih =>
    intro s r h
    cases s with
    | nil => exact absurd h (by simp [matchLit])
    | cons x s =>
      simp only [matchLit] at h
      split at h
      · next hc =>
        have hcx : c = x := by simpa using hc
        have hs := ih s r h
        simp [← hcx, hs]
      · exact absurd h (by simp)

/-- A literal matches its own append. -/
theorem matchLit_append : ∀ (l r : Doc), matchLit l (l ++ r) = some r := by
  intro l r
  induction l with
  | nil => rfl
  | cons c l ih => simp [matchLit, ih]

/-- A successful greedy class match decomposes the input, and the run is
nonempty. -/
theorem chomp1_sub (p : Char → Bool) :
    ∀ (s run r : Doc), chomp1 p s = some (run, r) → s = run ++ r ∧ run ≠ [] := by
  intro s
  induction s with
  | nil => intro run r h; exact absurd h (by simp [chomp1])
  | cons c s ih =>
    intro run r h
    simp only [chomp1] at h
    split at h
    · split at h
      · next run' r' hrec =>
        simp only [Option.some.injEq, Prod.mk.injEq] at h
        obtain ⟨h1, h2⟩ := h
        obtain ⟨hs, _⟩ := ih run' r' hrec
        subst h2
        refine ⟨?_, ?_⟩
        · rw [← h1]; simp [hs]
        · rw [← h1]; simp
      · next hrec =>
        simp only [Option.some.injEq, Prod.mk.injEq] at h
        obtain ⟨h1, h2⟩ := h
        subst h2
        refine ⟨?_, ?_⟩
        · rw [← h1]; simp
        · rw [← h1]; simp
    · exact absurd h (by simp)

/-- The greedy class match takes exactly a maximal satisfying run: on input
`xs ++ y :: r` with every character of `xs` satisfying `p` and `y` failing it,
the run is `xs`. -/
theorem chomp1_append (p : Char → Bool) :
    ∀ (xs : Doc) (y : Char) (r : Doc), xs ≠ [] → (∀ c ∈ xs, p c = true) → p y = false →
      chomp1 p (xs ++ y :: r) = some (xs, y :: r) := by
  intro xs
  induction xs with
  | nil => intro y r h _ _; exact absurd rfl h
  | cons c xs ih =>
    intro y r _ hall hy
    have hc : p c = true := hall c (by simp)
    cases xs with
    | nil => simp [chomp1, hc, hy]
    | cons d xs' =>
      have hrec := ih y r (by simp) (fun a ha => hall a (List.mem_cons_of_mem _ ha)) hy
      show (if p c = true then
              match chomp1 p (d :: xs' ++ y :: r) with
              | some (run, r') => some (c :: run, r')
              | none => some ([c], d :: xs' ++ y :: r)
            else none) = some (c :: d :: xs', y :: r)
      rw [if_pos hc, hrec]

/-- A character failing the class stops the greedy match immediately. -/
theorem chomp1_neg (p : Char → Bool) (c : Char) (s : Doc) (h : p c = false) :
    chomp1 p (c :: s) = none := by
  simp [chomp1, h]

/-! ### Decomposition of the pattern core -/

/-- The tail of `litRefl` after its leading quote. -/
def litReflT : Doc := (", reflect.TypeOf((*").data

/-- The tail of `litNil` after its leading closing parenthesis. -/
def litNilT : Doc := ("(nil).").data

theorem litRefl_eq : litRefl = '"' :: litReflT := by decide

theorem litNil_eq : litNil = ')' :: litNilT := by decide

/-- A successful core match decomposes the input into the three captures and
the fixed fragments, ending at the first closing parenthesis. -/
theorem matchCore_sub {s g1 g2 g3 r : Doc} (h : matchCore s = some (g1, g2, g3, r)) :
    s = g1 ++ (litRefl ++ (g2 ++ (litNil ++ (g3 ++ ')' :: r)))) := by
  unfold matchCore at h
  cases h1 : chomp1 (fun c => c != '"') s with
  | none => simp only [h1] at h; exact Option.noConfusion h
  | some v1 =>
    obtain ⟨a1, t1⟩ := v1
    simp only [h1] at h
    cases h2 : matchLit litRefl t1 with
    | none => simp only [h2] at h; exact Option.noConfusion h
    | some t2 =>
      simp only [h2] at h
      cases h3 : chomp1 (fun c => c != ')') t2 with
      | none => simp only [h3] at h; exact Option.noConfusion h
      | some v3 =>
        obtain ⟨a2, t3⟩ := v3
        simp only [h3] at h
        cases h4 : matchLit litNil t3 with
        | none => simp only [h4] at h; exact Option.noConfusion h
        | some t4 =>
          simp only [h4] at h
          cases h5 : chomp1 (fun c => c != ')') t4 with
          | none => simp only [h5] at h; exact Option.noConfusion h
          | some v5 =>
            obtain ⟨a3, t5⟩ := v5
            simp only [h5] at h
            cases h6 : matchLit [')'] t5 with
            | none => simp only [h6] at h; exact Option.noConfusion h
            | some t6 =>
              simp only [h6, Option.some.injEq, Prod.mk.injEq] at h
              obtain ⟨e1, e2, e3, e4⟩ := h
              subst e1; subst e2; subst e3; subst e4
              obtain ⟨hs1, -⟩ := chomp1_sub _ _ _ _ h1
              have hs2 := matchLit_sub _ _ _ h2
              obtain ⟨hs3, -⟩ := chomp1_sub _ _ _ _ h3
              have hs4 := matchLit_sub _ _ _ h4
              obtain ⟨hs5, -⟩ := chomp1_sub _ _ _ _ h5
              have hs6 := matchLit_sub _ _ _ h6
              subst hs1; subst hs2; subst hs3; subst hs4; subst hs5; subst hs6
              simp

/-- The core match succeeds on well-shaped input assembled from nonempty
captures that avoid the delimiters. -/
theorem matchCore_append (g1 g2 g3 r : Doc)
    (h1 : g1 ≠ []) (hN : ∀ c ∈ g1, (c != '"') = true)
    (h2 : g2 ≠ []) (hT : ∀ c ∈ g2, (c != ')') = true)
    (h3 : g3 ≠ []) (hM : ∀ c ∈ g3, (c != ')') = true) :
    matchCore (g1 ++ (litRefl ++ (g2 ++ (litNil ++ (g3 ++ ')' :: r))))) = some (g1, g2, g3, r) := by
  have e1 : chomp1 (fun c => c != '"') (g1 ++ (litRefl ++ (g2 ++ (litNil ++ (g3 ++ ')' :: r))))) =
      some (g1, litRefl ++ (g2 ++ (litNil ++ (g3 ++ ')' :: r)))) := by
    rw [litRefl_eq]
    exact chomp1_append _ g1 '"' _ h1 hN (by decide)
  have e2 : matchLit litRefl (litRefl ++ (g2 ++ (litNil ++ (g3 ++ ')' :: r)))) =
      some (g2 ++ (litNil ++ (g3 ++ ')' :: r))) := matchLit_append _ _
  have e3 : chomp1 (fun c => c != ')') (g2 ++ (litNil ++ (g3 ++ ')' :: r))) =
      some (g2, litNil ++ (g3 ++ ')' :: r)) := by
    rw [litNil_eq]
    exact chomp1_append _ g2 ')' _ h2 hT (by decide)
  have e4 : matchLit litNil (litNil ++ (g3 ++ ')' :: r)) = some (g3 ++ ')' :: r) :=
    matchLit_append _ _
  have e5 : chomp1 (fun c => c != ')') (g3 ++ ')' :: r) = some (g3, ')' :: r) :=
    chomp1_append _ g3 ')' r h3 hM (by decide)
  have e6 : matchLit [')'] (')' :: r) = some r := by simp [matchLit]
  simp only [matchCore, e1, e2, e3, e4, e5, e6]

/-! ### Every matcher consumes at least one character -/

theorem matchLit_length {l : List Char} {s r : Doc} (h : matchLit l s = some r) :
    r.length + l.length = s.length := by
  have hs := matchLit_sub _ _ _ h
  subst hs
  simp [List.length_append, Nat.add_comm]

theorem chomp1_length {p : Char → Bool} {s run r : Doc} (h : chomp1 p s = some (run, r)) :
    r.length < s.length := by
  obtain ⟨hs, hne⟩ := chomp1_sub _ _ _ _ h
  subst hs
  have : 0 < run.length := List.length_pos.mpr hne
  simp [List.length_append]
  omega

theorem matchCore_length {s g1 g2 g3 r : Doc} (h : matchCore s = some (g1, g2, g3, r)) :
    r.length < s.length := by
  have hs := matchCore_sub h
  subst hs
  simp [List.length_append]
  omega

theorem matchOneNoArg_length {g1 g2 g3 s rep r : Doc}
    (h : matchOneNoArg g1 g2 g3 s = some (rep, r)) : r.length ≤ s.length := by
  unfold matchOneNoArg at h
  cases h1 : matchLit [')'] s with
  | none => simp only [h1] at h; exact Option.noConfusion h
  | some t =>
    simp only [h1, Option.some.injEq, Prod.mk.injEq] at h
    obtain ⟨-, h2⟩ := h
    subst h2
    have := matchLit_length h1
    omega

theorem matchOne_length {s rep r : Doc} (h : matchOne s = some (rep, r)) :
    r.length < s.length := by
  unfold matchOne at h
  cases h1 : chomp1 isPySpace s with
  | none => simp only [h1] at h; exact Option.noConfusion h
  | some v1 =>
    obtain ⟨ws, t1⟩ := v1
    simp only [h1] at h
    cases h2 : matchLit lit1 t1 with
    | none => simp only [h2] at h; exact Option.noConfusion h
    | some t2 =>
      simp only [h2] at h
      cases h3 : matchCore t2 with
      | none => simp only [h3] at h; exact Option.noConfusion h
      | some v3 =>
        obtain ⟨g1, g2, g3, t3⟩ := v3
        simp only [h3] at h
        have l1 : t1.length < s.length := chomp1_length h1
        have l2 : t2.length ≤ t1.length := by have := matchLit_length h2; omega
        have l3 : t3.length < t2.length := matchCore_length h3
        cases h4 : matchLit [',', ' '] t3 with
        | none =>
          simp only [h4] at h
          have := matchOneNoArg_length h
          omega
        | some t4 =>
          simp only [h4] at h
          have l4 : t4.length ≤ t3.length := by have := matchLit_length h4; omega
          cases h5 : chomp1 (fun c => c != ')') t4 with
          | none =>
            simp only [h5] at h
            have := matchOneNoArg_length h
            omega
          | some v5 =>
            obtain ⟨g4, t5⟩ := v5
            simp only [h5] at h
            have l5 : t5.length < t4.length := chomp1_length h5
            cases h6 : matchLit [')'] t5 with
            | none =>
              simp only [h6] at h
              have := matchOneNoArg_length h
              omega
            | some t6 =>
              simp only [h6, Option.some.injEq, Prod.mk.injEq] at h
              obtain ⟨-, h7⟩ := h
              subst h7
              have := matchLit_length h6
              omega

theorem matchTwo_length {s rep r : Doc} (h : matchTwo s = some (rep, r)) :
    r.length < s.length := by
  unfold matchTwo at h
  cases h1 : matchLit ('\t' :: litCall) s with
  | none => simp only [h1] at h; exact Option.noConfusion h
  | some t1 =>
    simp only [h1] at h
    cases h2 : matchCore t1 with
    | none => simp only [h2] at h; exact Option.noConfusion h
    | some v2 =>
      obtain ⟨g1, g2, g3, t2⟩ := v2
      simp only [h2] at h
      cases h3 : matchLit [',', ' '] t2 with
      | none => simp only [h3] at h; exact Option.noConfusion h
      | some t3 =>
        simp only [h3] at h
        cases h4 : chomp1 (fun c => c != ')') t3 with
        | none => simp only [h4] at h; exact Option.noConfusion h
        | some v4 =>
          obtain ⟨g4, t4⟩ := v4
          simp only [h4] at h
          cases h5 : matchLit [')'] t4 with
          | none => simp only [h5] at h; exact Option.noConfusion h
          | some t5 =>
            simp only [h5, Option.some.injEq, Prod.mk.injEq] at h
            obtain ⟨-, h6⟩ := h
            subst h6
            have l1 := matchLit_length h1
            have l2 := matchCore_length h2
            have l3 := matchLit_length h3
            have l4 := chomp1_length h4
            have l5 := matchLit_length h5
            simp at l1 l3 l5
            omega

theorem matchThree_length {s rep r : Doc} (h : matchThree s = some (rep, r)) :
    r.length < s.length := by
  unfold matchThree at h
  cases h1 : matchLit ('\t' :: litCall) s with
  | none => simp only [h1] at h; exact Option.noConfusion h
  | some t1 =>
    simp only [h1] at h
    cases h2 : matchCore t1 with
    | none => simp only [h2] at h; exact Option.noConfusion h
    | some v2 =>
      obtain ⟨g1, g2, g3, t2⟩ := v2
      simp only [h2] at h
      cases h3 : matchLit [')'] t2 with
      | none => simp only [h3] at h; exact Option.noConfusion h
      | some t3 =>
        simp only [h3, Option.some.injEq, Prod.mk.injEq] at h
        obtain ⟨-, h4⟩ := h
        subst h4
        have l1 := matchLit_length h1
        have l2 := matchCore_length h2
        have l3 := matchLit_length h3
        simp at l1 l3
        omega

/-! ### Properties of the scan -/

/-- A matcher is consuming when every successful match strictly shortens the
remaining input. -/
def Consuming (m : Doc → Option (Doc × Doc)) : Prop :=
  ∀ s rep r, m s = some (rep, r) → r.length < s.length

theorem matchOne_consuming : Consuming matchOne := fun _ _ _ h => matchOne_length h

theorem matchTwo_consuming : Consuming matchTwo := fun _ _ _ h => matchTwo_length h

theorem matchThree_consuming : Consuming matchThree := fun _ _ _ h => matchThree_length h

/-- For a consuming matcher, any fuel at least the input length computes the
same scan as fuel exactly the input length. -/
theorem reSubFuel_congr (m : Doc → Option (Doc × Doc)) (hm : Consuming m) :
    ∀ (f : Nat) (s : Doc), s.length ≤ f → reSubFuel m f s = reSubFuel m s.length s := by
  intro f
  induction f using Nat.strong_induction_on with
  | _ f ih =>
    intro s hs
    match f, s with
    | 0, s =>
      have : s = [] := by cases s with
        | nil => rfl
        | cons c t => simp at hs
      subst this
      rfl
    | f + 1, [] => rfl
    | f + 1, c :: s =>
      simp only [reSubFuel, List.length_cons]
      cases h : m (c :: s) with
      | some v =>
        obtain ⟨rep, r⟩ := v
        have hr : r.length < s.length + 1 := hm _ _ _ h
        have hsf : s.length ≤ f := by simpa using hs
        show rep ++ reSubFuel m f r = rep ++ reSubFuel m s.length r
        rw [ih f (by omega) r (by omega), ih s.length (by omega) r (by omega)]
      | none =>
        have hsf : s.length ≤ f := by simpa using hs
        show c :: reSubFuel m f s = c :: reSubFuel m s.length s
        rw [ih f (by omega) s (by omega)]

theorem reSub_nil (m : Doc → Option (Doc × Doc)) : reSub m [] = [] := rfl

/-- Scan step on a failed match: copy the head character. -/
theorem reSub_cons_none {m : Doc → Option (Doc × Doc)} {c : Char} {s : Doc}
    (h : m (c :: s) = none) : reSub m (c :: s) = c :: reSub m s := by
  simp only [reSub, List.length_cons, reSubFuel, h]

/-- Scan step on a successful match of a consuming matcher: emit the
replacement and continue after the match. -/
theorem reSub_cons_some {m : Doc → Option (Doc × Doc)} (hm : Consuming m)
    {c : Char} {s rep r : Doc} (h : m (c :: s) = some (rep, r)) :
    reSub m (c :: s) = rep ++ reSub m r := by
  have hr : r.length < s.length + 1 := hm _ _ _ h
  simp only [reSub, List.length_cons, reSubFuel, h]
  rw [reSubFuel_congr m hm s.length r (by omega)]

/-- If the matcher fails at every position, the scan is the identity. -/
theorem reSub_id {m : Doc → Option (Doc × Doc)} :
    ∀ {s : Doc}, (∀ i, m (s.drop i) = none) → reSub m s = s := by
  have key : ∀ (f : Nat) (s : Doc), (∀ i, m (s.drop i) = none) → reSubFuel m f s = s := by
    intro f
    induction f with
    | zero => intro s _; rfl
    | succ f ih =>
      intro s h
      cases s with
      | nil => rfl
      | cons c s =>
        have h0 : m (c :: s) = none := by simpa using h 0
        simp only [reSubFuel, h0]
        rw [ih s (fun i => by simpa using h (i + 1))]
  intro s h
  exact key s.length s h

/-- The scan passes over a prefix at whose positions the matcher fails. -/
theorem reSub_append_none {m : Doc → Option (Doc × Doc)} :
    ∀ (a : Doc) {b : Doc}, (∀ i, i < a.length → m ((a ++ b).drop i) = none) →
      reSub m (a ++ b) = a ++ reSub m b := by
  intro a
  induction a with
  | nil => intro b _; rfl
  | cons c a ih =>
    intro b h
    have h0 : m (c :: (a ++ b)) = none := by simpa using h 0 (by simp)
    rw [List.cons_append, reSub_cons_none h0, ih (fun i hi => by simpa using h (i + 1) (by simpa using hi))]
    rfl

/-! ### Occurrence checking -/

/-- A character of a dropped suffix is a character of the document. -/
theorem mem_of_drop {c : Char} : ∀ {d : Doc} {i : Nat}, c ∈ d.drop i → c ∈ d := by
  intro d
  induction d with
  | nil => intro i h; simp at h
  | cons x d ih =>
    intro i h
    cases i with
    | zero => simpa using h
    | succ i => exact List.mem_cons_of_mem _ (ih (by simpa using h))

/-- The Boolean no-occurrence check implies failure of the matcher at every
position. -/
theorem noOccB_spec {m : Doc → Option (Doc × Doc)} {d : Doc} (h : noOccB m d = true) :
    ∀ i, m (d.drop i) = none := by
  intro i
  have hall := List.all_eq_true.mp h
  by_cases hi : i ≤ d.length
  · have hmem : i ∈ List.range (d.length + 1) := List.mem_range.mpr (by omega)
    have := hall i hmem
    simpa [Option.isNone_iff_eq_none] using this
  · have h1 : d.drop i = [] := List.drop_eq_nil_of_le (by omega)
    have h2 : d.drop d.length = [] := List.drop_eq_nil_of_le (le_refl _)
    have := hall d.length (List.mem_range.mpr (by omega))
    rw [h2] at this
    rw [h1]
    simpa [Option.isNone_iff_eq_none] using this

/-! ### What a match needs from the document -/

/-- A successful rule-2 match starts with a literal tab. -/
theorem matchTwo_tab {s : Doc} {x : Doc × Doc} (h : matchTwo s = some x) :
    ∃ t, s = '\t' :: t := by
  unfold matchTwo at h
  cases h1 : matchLit ('\t' :: litCall) s with
  | none => simp only [h1] at h; exact Option.noConfusion h
  | some s1 =>
    have := matchLit_sub _ _ _ h1
    exact ⟨litCall ++ s1, by simpa using this⟩

/-- A successful rule-3 match starts with a literal tab. -/
theorem matchThree_tab {s : Doc} {x : Doc × Doc} (h : matchThree s = some x) :
    ∃ t, s = '\t' :: t := by
  unfold matchThree at h
  cases h1 : matchLit ('\t' :: litCall) s with
  | none => simp only [h1] at h; exact Option.noConfusion h
  | some s1 =>
    have := matchLit_sub _ _ _ h1
    exact ⟨litCall ++ s1, by simpa using this⟩

/-- A successful rule-1 match contains a hard newline (the one separating the
truncated call from its duplicate). -/
theorem matchOne_newline {s : Doc} {x : Doc × Doc} (h : matchOne s = some x) :
    '\n' ∈ s := by
  unfold matchOne at h
  cases h1 : chomp1 isPySpace s with
  | none => simp only [h1] at h; exact Option.noConfusion h
  | some v1 =>
    obtain ⟨ws, t1⟩ := v1
    simp only [h1] at h
    cases h2 : matchLit lit1 t1 with
    | none => simp only [h2] at h; exact Option.noConfusion h
    | some t2 =>
      obtain ⟨hs1, -⟩ := chomp1_sub _ _ _ _ h1
      have hs2 := matchLit_sub _ _ _ h2
      subst hs1; subst hs2
      have hn : '\n' ∈ lit1 := by decide
      simp [hn]

/-- Rule 2 is the identity wherever no tab occurs. -/
theorem sub2_id_of_no_tab {d : Doc} (h : '\t' ∉ d) : sub2 d = d := by
  apply reSub_id
  intro i
  cases hm : matchTwo (d.drop i) with
  | none => rfl
  | some x =>
    obtain ⟨t, ht⟩ := matchTwo_tab hm
    exact absurd (mem_of_drop (ht ▸ List.mem_cons_self '\t' t)) h

/-- Rule 3 is the identity wherever no tab occurs. -/
theorem sub3_id_of_no_tab {d : Doc} (h : '\t' ∉ d) : sub3 d = d := by
  apply reSub_id
  intro i
  cases hm : matchThree (d.drop i) with
  | none => rfl
  | some x =>
    obtain ⟨t, ht⟩ := matchThree_tab hm
    exact absurd (mem_of_drop (ht ▸ List.mem_cons_self '\t' t)) h

/-- Rule 1 is the identity wherever no newline occurs. -/
theorem sub1_id_of_no_newline {d : Doc} (h : '\n' ∉ d) : sub1 d = d := by
  apply reSub_id
  intro i
  cases hm : matchOne (d.drop i) with
  | none => rfl
  | some x => exact absurd (mem_of_drop (matchOne_newline hm)) h

/-! ### Well-formed captures -/

/-- Plain identifier characters (letters), the shape of the generated mock
names, types, and methods; such captures contain none of the pattern
delimiters. -/
def idChar (c : Char) : Bool :=
  ('a' ≤ c && c ≤ 'z') || ('A' ≤ c && c ≤ 'Z')

/-- A well-formed capture: a nonempty string of identifier characters. -/
def goodCap (s : Doc) : Prop :=
  s ≠ [] ∧ ∀ c ∈ s, idChar c = true

instance (s : Doc) : Decidable (goodCap s) := by
  unfold goodCap
  infer_instance

theorem idChar_ne_tab {c : Char} (h : idChar c = true) : c ≠ '\t' := by
  intro hc; subst hc; exact absurd h (by decide)

theorem idChar_ne_newline {c : Char} (h : idChar c = true) : c ≠ '\n' := by
  intro hc; subst hc; exact absurd h (by decide)

theorem idChar_ne_quote {c : Char} (h : idChar c = true) : (c != '"') = true := by
  have : c ≠ '"' := by intro hc; subst hc; exact absurd h (by decide)
  simpa [bne_iff_ne] using this

theorem idChar_ne_paren {c : Char} (h : idChar c = true) : (c != ')') = true := by
  have : c ≠ ')' := by intro hc; subst hc; exact absurd h (by decide)
  simpa [bne_iff_ne] using this

/-! ### The canonical no-argument call line, parametric in the captures -/

/-- Everything of a tab-indented no-argument call line after its leading tab:
the call fragment, name `n`, type `t`, method `m3`, and the two closing
parentheses. -/
def callBody (n t m3 : Doc) : Doc :=
  litCall ++ (n ++ (litRefl ++ (t ++ (litNil ++ (m3 ++ [')', ')'])))))

/-- A tab-indented call-construction line with no trailing argument:
`\treturn mockrec.RecordCall(mr.mock.ctrl, mr.mock, "n", reflect.TypeOf((*t)(nil).m3))`. -/
def callLine (n t m3 : Doc) : Doc := '\t' :: callBody n t m3

/-- The corresponding no-argument canonical line emitted by rule 3:
`\treturn mockrec.RecordNoArgsCall(mr.mock.ctrl, mr.mock, "n", reflect.TypeOf((*t)(nil).m3))`. -/
def noArgsLine (n t m3 : Doc) : Doc := rep3 n t m3

theorem newline_not_in_callLine {N T M : Doc} (hN : goodCap N) (hT : goodCap T)
    (hM : goodCap M) : '\n' ∉ callLine N T M := by
  intro hmem
  simp only [callLine, callBody, List.mem_cons, List.mem_append] at hmem
  rcases hmem with h | h | h | h | h | h | h
  · exact absurd h (by decide)
  · exact absurd h (by decide)
  · exact absurd (hN.2 _ h) (by decide)
  · exact absurd h (by decide)
  · exact absurd (hT.2 _ h) (by decide)
  · exact absurd h (by decide)
  · rcases h with h | h
    · exact absurd (hM.2 _ h) (by decide)
    · simp at h

/-- Rule 3 matches the no-argument canonical line wherever it starts,
regardless of what follows it: the captures are delimited from the left, so a
trailing context is simply left over after the consumed second closing
parenthesis. -/
theorem matchThree_callLine_post {N T M : Doc} (post : Doc) (hN : goodCap N)
    (hT : goodCap T) (hM : goodCap M) :
    matchThree (callLine N T M ++ post) = some (rep3 N T M, post) := by
  have hshape : callLine N T M ++ post =
      ('\t' :: litCall) ++ (N ++ (litRefl ++ (T ++ (litNil ++ (M ++ ')' :: ')' :: post))))) := by
    simp [callLine, callBody]
  have hlit : matchLit ('\t' :: litCall) (callLine N T M ++ post) =
      some (N ++ (litRefl ++ (T ++ (litNil ++ (M ++ ')' :: ')' :: post))))) := by
    rw [hshape, matchLit_append]
  have hcore : matchCore (N ++ (litRefl ++ (T ++ (litNil ++ (M ++ ')' :: ')' :: post))))) =
      some (N, T, M, ')' :: post) :=
    matchCore_append N T M (')' :: post) hN.1 (fun c hc => idChar_ne_quote (hN.2 c hc)) hT.1
      (fun c hc => idChar_ne_paren (hT.2 c hc)) hM.1 (fun c hc => idChar_ne_paren (hM.2 c hc))
  have hfin : matchLit [')'] (')' :: post) = some post := by simp [matchLit]
  simp only [matchThree, hlit, hcore, hfin]

/-! ### Rule 1 on a duplicated-call construct preceded by a line break -/

/-- A concrete instance of the duplicated-call malformation, with name `Foo`,
type `Bar`, method `Foo`, and no trailing argument. -/
def dupBody : Doc :=
  ("return mockrec.RecordCall(mr.mock.ctrl, mr.mock,\nmockrec.RecordCall(mr.mock.ctrl, mr.mock, \"Foo\", reflect.TypeOf((*Bar)(nil).Foo))").data

/-- `dupBody` after the fixed rule-1 fragment. -/
def dupCoreRest : Doc :=
  ("Foo\", reflect.TypeOf((*Bar)(nil).Foo))").data

/-- The repaired line rule 1 produces for `dupBody`: one tab, then the single
well-formed call. -/
def rep9 : Doc := rep1 ("Foo").data ("Bar").data ("Foo").data []

theorem dupBody_cons :
    dupBody = 'r' ::
      ("eturn mockrec.RecordCall(mr.mock.ctrl, mr.mock,\nmockrec.RecordCall(mr.mock.ctrl, mr.mock, \"Foo\", reflect.TypeOf((*Bar)(nil).Foo))").data := by
  decide

/-- Rule 1 fails immediately wherever the position does not start with
whitespace. -/
theorem matchOne_none_of_head {c : Char} {s : Doc} (h : isPySpace c = false) :
    matchOne (c :: s) = none := by
  simp only [matchOne, chomp1_neg _ _ _ h]

/-- At a newline followed by indentation and the duplicated construct, rule 1
matches, consuming the newline and the whole indentation run, and produces
the repaired tab-indented line. -/
theorem matchOne_dup {ind : Doc} (hind : ∀ c ∈ ind, isPySpace c = true) :
    matchOne ('\n' :: (ind ++ dupBody)) = some (rep9, []) := by
  have hall : ∀ c ∈ '\n' :: ind, isPySpace c = true := by
    intro c hc
    rcases List.mem_cons.mp hc with h | h
    · subst h; decide
    · exact hind c h
  have hshape : '\n' :: (ind ++ dupBody) = ('\n' :: ind) ++
      ('r' :: ("eturn mockrec.RecordCall(mr.mock.ctrl, mr.mock,\nmockrec.RecordCall(mr.mock.ctrl, mr.mock, \"Foo\", reflect.TypeOf((*Bar)(nil).Foo))").data) := by
    rw [← dupBody_cons]
    simp
  have e1 : chomp1 isPySpace ('\n' :: (ind ++ dupBody)) = some ('\n' :: ind, dupBody) := by
    rw [hshape, chomp1_append isPySpace ('\n' :: ind) 'r' _ (by simp) hall (by decide)]
    rw [← dupBody_cons]
  have e2 : matchLit lit1 dupBody = some dupCoreRest := by decide
  have e3 : matchCore dupCoreRest =
      some (("Foo").data, ("Bar").data, ("Foo").data, [')']) := by decide
  have e4 : matchLit [',', ' '] ([')'] : Doc) = none := by decide
  have e5 : matchOneNoArg ("Foo").data ("Bar").data ("Foo").data [')'] = some (rep9, []) := by
    decide
  simp only [matchOne, e1, e2, e3, e4, e5]

/-! ### Rule 2 reproduces its match exactly -/

/-- A successful rule-2 match is reconstructed verbatim by its replacement. -/
theorem matchTwo_recon {s rep r : Doc} (h : matchTwo s = some (rep, r)) : rep ++ r = s := by
  unfold matchTwo at h
  cases h1 : matchLit ('\t' :: litCall) s with
  | none => simp only [h1] at h; exact Option.noConfusion h
  | some t1 =>
    simp only [h1] at h
    cases h2 : matchCore t1 with
    | none => simp only [h2] at h; exact Option.noConfusion h
    | some v2 =>
      obtain ⟨g1, g2, g3, t2⟩ := v2
      simp only [h2] at h
      cases h3 : matchLit [',', ' '] t2 with
      | none => simp only [h3] at h; exact Option.noConfusion h
      | some t3 =>
        simp only [h3] at h
        cases h4 : chomp1 (fun c => c != ')') t3 with
        | none => simp only [h4] at h; exact Option.noConfusion h
        | some v4 =>
          obtain ⟨g4, t4⟩ := v4
          simp only [h4] at h
          cases h5 : matchLit [')'] t4 with
          | none => simp only [h5] at h; exact Option.noConfusion h
          | some t5 =>
            simp only [h5, Option.some.injEq, Prod.mk.injEq] at h
            obtain ⟨hrep, hr⟩ := h
            subst hrep; subst hr
            have e1 := matchLit_sub _ _ _ h1
            have e2 := matchCore_sub h2
            have e3 := matchLit_sub _ _ _ h3
            obtain ⟨e4, -⟩ := chomp1_sub _ _ _ _ h4
            have e5 := matchLit_sub _ _ _ h5
            subst e1; subst e2; subst e3; subst e4; subst e5
            simp [rep2]

/-- The rule-2 scan never changes anything: every replacement equals the
matched text. -/
theorem sub2_eq_id (d : Doc) : sub2 d = d := by
  have key : ∀ (f : Nat) (s : Doc), reSubFuel matchTwo f s = s := by
    intro f
    induction f with
    | zero => intro s; rfl
    | succ f ih =>
      intro s
      cases s with
      | nil => rfl
      | cons c s =>
        cases h : matchTwo (c :: s) with
        | none =>
          simp only [reSubFuel, h]
          rw [ih]
        | some v =>
          obtain ⟨rep, r⟩ := v
          simp only [reSubFuel, h]
          rw [ih]
          exact matchTwo_recon h
  exact key _ _

/-! ### The claims -/

/-- The duplicated-call input of claim C1, with a trailing argument: leading
space, the truncated call, a newline, and the full call ending `, arg)`. -/
def c1Input : String :=
  " return mockrec.RecordCall(mr.mock.ctrl, mr.mock,\nmockrec.RecordCall(mr.mock.ctrl, mr.mock, \"Foo\", reflect.TypeOf((*Bar)(nil).Foo), arg)"

/-- The canonical single-call form claim C1 expects in the output. -/
def c1Canonical : String :=
  "return mockrec.RecordCall(mr.mock.ctrl, mr.mock, \"Foo\", reflect.TypeOf((*Bar)(nil).Foo), arg)"

/-- Claim C1 (code bug): on a duplicated-call construct with trailing argument
`arg`, the full pass emits `reflect.TypeOf((*Bar)(nil).Foo)arg)` — rule 1's
template drops the comma-space separator consumed by its optional group — so
the canonical single-call form `..., arg)` appears nowhere in the output. -/
theorem c1_rule1_drops_separator :
    fixContent c1Input =
      "\treturn mockrec.RecordCall(mr.mock.ctrl, mr.mock, \"Foo\", reflect.TypeOf((*Bar)(nil).Foo)arg)"
      ∧ containsSeq (c1Canonical).data (fixContent c1Input).data = false := by
  exact ⟨by decide, by decide⟩

/-- The counterexample document of claim C2: an enclosing rule-3 occurrence
whose type capture (any characters except a closing parenthesis) swallows the
head of a second, fully well-formed tab-indented no-argument occurrence with
letter captures `Inner`, `Ty`, `Me`; the two occurrences share their tail
`)(nil).Me))`.  The leftmost scan consumes the whole document as the
enclosing match and never tries the inner position. -/
def c2CounterInput : String :=
  "\treturn mockrec.RecordCall(mr.mock.ctrl, mr.mock, \"Outer\", reflect.TypeOf((*\treturn mockrec.RecordCall(mr.mock.ctrl, mr.mock, \"Inner\", reflect.TypeOf((*Ty)(nil).Me))"

/-- Claim C2, counterexample: a document containing the tab-indented
no-trailing-argument pattern with name `Inner`, type `Ty`, method `Me` whose
full-pass output retains that occurrence verbatim as `RecordCall` and
contains no `RecordNoArgsCall` form with those captures — the occurrence
starts inside an enclosing leftmost match, is skipped by the scan, and its
text is re-emitted unchanged by the enclosing replacement. -/
theorem c2_nested_occurrence_skipped :
    containsSeq (callLine ("Inner").data ("Ty").data ("Me").data) ((c2CounterInput).data) = true
      ∧ containsSeq (callLine ("Inner").data ("Ty").data ("Me").data)
          ((fixContent c2CounterInput).data) = true
      ∧ containsSeq (noArgsLine ("Inner").data ("Ty").data ("Me").data)
          ((fixContent c2CounterInput).data) = false := by
  exact ⟨by decide, by decide, by decide⟩

/-- Claim C2, amended: for every document containing the tab-indented
no-trailing-argument call-construction line with well-formed captures `N`,
`T`, `M`, where the surrounding context contains no tab and no newline (so
no rule pattern can start in the context or enclose the occurrence), the
full pass rewrites exactly that occurrence to the no-argument canonical call
target with the same captures and leaves the context unchanged. -/
theorem c2_containing_rewrites (pre post N T M : Doc)
    (hpreT : '\t' ∉ pre) (hpreN : '\n' ∉ pre)
    (hpostT : '\t' ∉ post) (hpostN : '\n' ∉ post)
    (hN : goodCap N) (hT : goodCap T) (hM : goodCap M) :
    fixPass (pre ++ (callLine N T M ++ post)) = pre ++ (noArgsLine N T M ++ post) := by
  have hno_nl : '\n' ∉ pre ++ (callLine N T M ++ post) := by
    intro hmem
    rcases List.mem_append.mp hmem with h | h
    · exact hpreN h
    · rcases List.mem_append.mp h with h | h
      · exact newline_not_in_callLine hN hT hM h
      · exact hpostN h
  have e1 : sub1 (pre ++ (callLine N T M ++ post)) = pre ++ (callLine N T M ++ post) :=
    sub1_id_of_no_newline hno_nl
  have e2 : sub2 (pre ++ (callLine N T M ++ post)) = pre ++ (callLine N T M ++ post) :=
    sub2_eq_id _
  have hfail : ∀ i, i < pre.length →
      matchThree ((pre ++ (callLine N T M ++ post)).drop i) = none := by
    intro i hi
    rw [List.drop_append_of_le_length (by omega)]
    cases hpd : pre.drop i with
    | nil =>
      exfalso
      have := List.drop_eq_nil_iff.mp hpd
      omega
    | cons c t =>
      have hc : c ∈ pre := mem_of_drop (hpd ▸ List.mem_cons_self c t)
      rw [List.cons_append]
      cases hm : matchThree (c :: (t ++ (callLine N T M ++ post))) with
      | none => rfl
      | some x =>
        obtain ⟨t2, ht2⟩ := matchThree_tab hm
        injection ht2 with hc2 _
        exact absurd (hc2 ▸ hc) hpreT
  have e3 : sub3 (pre ++ (callLine N T M ++ post)) = pre ++ (rep3 N T M ++ post) := by
    show reSub matchThree (pre ++ (callLine N T M ++ post)) = pre ++ (rep3 N T M ++ post)
    rw [reSub_append_none pre hfail]
    congr 1
    have hm := matchThree_callLine_post post hN hT hM
    have hshape : callLine N T M ++ post = '\t' :: (callBody N T M ++ post) := rfl
    rw [hshape] at hm
    have hpost : reSub matchThree post = post := sub3_id_of_no_tab hpostT
    rw [hshape, reSub_cons_some matchThree_consuming hm, hpost]
  show sub3 (sub2 (sub1 (pre ++ (callLine N T M ++ post)))) = _
  rw [e1, e2, e3]
  rfl

theorem c2_containing_witness :
    ('\t' ∉ ("var x = 1; ").data) ∧ ('\n' ∉ ("var x = 1; ").data) ∧
      ('\t' ∉ (" // done").data) ∧ ('\n' ∉ (" // done").data) ∧
      goodCap ("Baz").data ∧ goodCap ("Qux").data ∧
      fixPass (("var x = 1; ").data ++
          (callLine ("Baz").data ("Qux").data ("Baz").data ++ (" // done").data)) =
        ("var x = 1; ").data ++
          (noArgsLine ("Baz").data ("Qux").data ("Baz").data ++ (" // done").data) :=
  ⟨by decide, by decide, by decide, by decide, by decide, by decide,
    c2_containing_rewrites _ _ _ _ _ (by decide) (by decide) (by decide) (by decide)
      (by decide) (by decide) (by decide)⟩

/-- The idempotence counterexample document of claim C3: a canonical-looking
line whose quoted name capture itself contains a tab-indented call fragment;
the closing quote and the text after the first rewrite reassemble into a
fresh rule-3 match that only the second pass sees. -/
def c3Input : String :=
  "\treturn mockrec.RecordCall(mr.mock.ctrl, mr.mock, \"a\treturn mockrec.RecordCall(mr.mock.ctrl, mr.mock, \", reflect.TypeOf((*B)(nil).F))x\", reflect.TypeOf((*Q)(nil).W))"

/-- Claim C3, counterexample: the full pass is not idempotent — on `c3Input`
a second application changes the output again. -/
theorem c3_not_idempotent : fixPass (fixPass (c3Input).data) ≠ fixPass (c3Input).data := by
  decide

/-- Claim C3, amended: the full pass is idempotent on every document whose
once-transformed output is free of all three patterns (in particular, a
second application changes nothing whenever the first run fully normalized
the document). -/
theorem c3_idempotent_on_clean_output (d : Doc)
    (h1 : noOccB matchOne (fixPass d) = true)
    (h2 : noOccB matchTwo (fixPass d) = true)
    (h3 : noOccB matchThree (fixPass d) = true) :
    fixPass (fixPass d) = fixPass d := by
  have e1 : sub1 (fixPass d) = fixPass d := reSub_id (noOccB_spec h1)
  have e2 : sub2 (fixPass d) = fixPass d := reSub_id (noOccB_spec h2)
  have e3 : sub3 (fixPass d) = fixPass d := reSub_id (noOccB_spec h3)
  show sub3 (sub2 (sub1 (fixPass d))) = fixPass d
  rw [e1, e2, e3]

theorem c3_witness :
    noOccB matchOne (fixPass ("return nil\n").data) = true ∧
      noOccB matchTwo (fixPass ("return nil\n").data) = true ∧
      noOccB matchThree (fixPass ("return nil\n").data) = true ∧
      fixPass (fixPass ("return nil\n").data) = fixPass ("return nil\n").data :=
  ⟨by decide, by decide, by decide,
    c3_idempotent_on_clean_output _ (by decide) (by decide) (by decide)⟩

/-- Claim C4: on a document where none of the three rule patterns matches at
any position, the full pass is the identity. -/
theorem c4_identity_on_clean (d : Doc)
    (h1 : noOccB matchOne d = true)
    (h2 : noOccB matchTwo d = true)
    (h3 : noOccB matchThree d = true) :
    fixPass d = d := by
  have e1 : sub1 d = d := reSub_id (noOccB_spec h1)
  have e2 : sub2 d = d := reSub_id (noOccB_spec h2)
  have e3 : sub3 d = d := reSub_id (noOccB_spec h3)
  show sub3 (sub2 (sub1 d)) = d
  rw [e1, e2, e3]

theorem c4_witness :
    noOccB matchOne ("package fileops\n").data = true ∧
      noOccB matchTwo ("package fileops\n").data = true ∧
      noOccB matchThree ("package fileops\n").data = true ∧
      fixPass ("package fileops\n").data = ("package fileops\n").data :=
  ⟨by decide, by decide, by decide,
    c4_identity_on_clean _ (by decide) (by decide) (by decide)⟩

/-- The exact example input of claim C5 (no leading whitespace before
`return`, no tab anywhere). -/
def c5Input : String :=
  "return mockrec.RecordCall(mr.mock.ctrl, mr.mock,\nmockrec.RecordCall(mr.mock.ctrl, mr.mock, \"Foo\", reflect.TypeOf((*Bar)(nil).Foo))"

/-- The output claim C5 expects. -/
def c5Claimed : String :=
  "return mockrec.RecordCall(mr.mock.ctrl, mr.mock, \"Foo\", reflect.TypeOf((*Bar)(nil).Foo))"

/-- Claim C5, counterexample: on the spec's example input the full pass does
not produce the claimed repaired line. -/
theorem c5_example_not_repaired : fixContent c5Input ≠ c5Claimed := by decide

/-- Claim C5, amended: the full pass leaves the spec's example input
unchanged — rule 1 requires at least one whitespace character before
`return`, and rules 2 and 3 require a leading tab, none of which the example
provides. -/
theorem c5_identity_on_example : fixContent c5Input = c5Input := by decide

/-- The order-sensitivity input of claim C6: a duplicated-call construct with
no trailing argument, preceded by a space. -/
def c6Input : String :=
  " return mockrec.RecordCall(mr.mock.ctrl, mr.mock,\nmockrec.RecordCall(mr.mock.ctrl, mr.mock, \"Foo\", reflect.TypeOf((*Bar)(nil).Foo))"

/-- Claim C6: rule order is significant — applying rule 3 before rule 1
produces a different output than the source order 1, 2, 3 (in source order
rule 1 first builds the tab-indented line that rule 3 then renames; with
rule 3 first, nothing is tab-indented yet and the renaming never happens). -/
theorem c6_order_significant :
    ∃ d : Doc, sub2 (sub1 (sub3 d)) ≠ fixPass d :=
  ⟨(c6Input).data, by decide⟩

/-- Claim C7: no rule ever raises an error — each substitution is a total
function, and a rule whose pattern matches at no position of the document
leaves the document unchanged. -/
theorem c7_no_match_no_op (d : Doc) :
    (noOccB matchOne d = true → sub1 d = d) ∧
      (noOccB matchTwo d = true → sub2 d = d) ∧
      (noOccB matchThree d = true → sub3 d = d) :=
  ⟨fun h => reSub_id (noOccB_spec h),
    fun h => reSub_id (noOccB_spec h),
    fun h => reSub_id (noOccB_spec h)⟩

theorem c7_witness :
    sub1 ("abc def\n").data = ("abc def\n").data ∧
      sub2 ("abc def\n").data = ("abc def\n").data ∧
      sub3 ("abc def\n").data = ("abc def\n").data :=
  ⟨(c7_no_match_no_op _).1 (by decide),
    (c7_no_match_no_op _).2.1 (by decide),
    (c7_no_match_no_op _).2.2 (by decide)⟩

/-- Claim C8: rule 2 produces no visible change on any document — its
replacement template reproduces the matched text verbatim, so in particular
every document whose rule-2 occurrences are already canonical (which all of
them are, by the shape of the pattern) is left unchanged. -/
theorem c8_rule2_identity (d : Doc) : sub2 d = d := sub2_eq_id d

/-- Claim C9: when the duplicated-call construct sits after a previous line
(whitespace-free) and a newline plus indentation, rule 1 deletes the newline,
replaces the whole leading whitespace run by a single tab, and joins the
repaired return statement directly onto the previous line. -/
theorem c9_rule1_joins_lines (prev ind : Doc)
    (hprev : ∀ c ∈ prev, isPySpace c = false) (hne : ind ≠ [])
    (hind : ∀ c ∈ ind, isPySpace c = true) :
    sub1 (prev ++ '\n' :: (ind ++ dupBody)) = prev ++ rep9 := by
  have hfail : ∀ i, i < prev.length →
      matchOne ((prev ++ '\n' :: (ind ++ dupBody)).drop i) = none := by
    intro i hi
    rw [List.drop_append_of_le_length (by omega)]
    cases hpd : prev.drop i with
    | nil =>
      exfalso
      have := List.drop_eq_nil_iff.mp hpd
      omega
    | cons c t =>
      have hc : c ∈ prev := mem_of_drop (hpd ▸ List.mem_cons_self c t)
      rw [List.cons_append]
      exact matchOne_none_of_head (hprev c hc)
  show reSub matchOne (prev ++ '\n' :: (ind ++ dupBody)) = prev ++ rep9
  rw [reSub_append_none prev hfail,
    reSub_cons_some matchOne_consuming (matchOne_dup hind), reSub_nil, List.append_nil]

theorem c9_witness :
    (∀ c ∈ ("x").data, isPySpace c = false) ∧ ([' ', ' '] : Doc) ≠ [] ∧
      (∀ c ∈ ([' ', ' '] : Doc), isPySpace c = true) ∧
      sub1 (("x").data ++ '\n' :: ([' ', ' '] ++ dupBody)) = ("x").data ++ rep9 :=
  ⟨by decide, by decide, by decide,
    c9_rule1_joins_lines _ _ (by decide) (by decide) (by decide)⟩

/-- Claim C10: rules 2 and 3 only fire after a literal tab; a document with
no tab character at all — for instance one whose call lines are space-indented
or unindented — is left unchanged by both, so its calls are never rewritten
to the no-argument call target. -/
theorem c10_no_tab_no_rewrite (d : Doc) (h : '\t' ∉ d) : sub2 d = d ∧ sub3 d = d :=
  ⟨sub2_id_of_no_tab h, sub3_id_of_no_tab h⟩

theorem c10_witness :
    ('\t' ∉ (" return mockrec.RecordCall(mr.mock.ctrl, mr.mock, \"Baz\", reflect.TypeOf((*Qux)(nil).Baz))").data) ∧
      sub2 (" return mockrec.RecordCall(mr.mock.ctrl, mr.mock, \"Baz\", reflect.TypeOf((*Qux)(nil).Baz))").data =
        (" return mockrec.RecordCall(mr.mock.ctrl, mr.mock, \"Baz\", reflect.TypeOf((*Qux)(nil).Baz))").data ∧
      sub3 (" return mockrec.RecordCall(mr.mock.ctrl, mr.mock, \"Baz\", reflect.TypeOf((*Qux)(nil).Baz))").data =
        (" return mockrec.RecordCall(mr.mock.ctrl, mr.mock, \"Baz\", reflect.TypeOf((*Qux)(nil).Baz))").data :=
  ⟨by decide, (c10_no_tab_no_rewrite _ (by decide)).1, (c10_no_tab_no_rewrite _ (by decide)).2⟩

end FixMocks
